import Mathlib

/-!
Verification of the `lam` abstract machine's bytecode data model
(`lib/lam-emu/src/bytecode.rs`) and of the web runtime collaborator
(`lib/lam-rts-web/src/web_runtime.rs`).

Rust enums become Lean inductives; a Rust `panic!` is modelled as `none`
of an `Option` result; `u8`/`u32` indices become `Nat` (no claim here
depends on the machine width); `num_bigint::BigInt` becomes `Int`
(both are arbitrary-precision signed integers).

The `Literal` term universe and the `MFA` triple live in
`lib/lam-emu/src/literal.rs`, which is not part of the two source files;
they are modelled from the spec's data-model section, as marked on each
such definition.
-/

namespace Lam

/-- `Atom`: an interned, immutable name (`literal.rs`; the spec treats it
as an immutable string compared by content). -/
abbrev Atom := String

/-- `Arity`: non-negative integer argument count. -/
abbrev Arity := Nat

/-- `Label`: opaque identifier of a code location. -/
abbrev Label := Nat

/-- `Register` from `bytecode.rs`: `Global(u32)` or `Local(u32)`. -/
inductive Register where
  | Global (i : Nat)
  | Local (i : Nat)
deriving DecidableEq, Repr

mutual

/-- Modelled from the spec: the `Literal` term universe of
`lib/lam-emu/src/literal.rs` (not under the provided sources) — atoms,
arbitrary-precision integers, floats (carried by their bit pattern),
binaries, lists (`Nil` | `Cons(head: Value, tail: Value)`), tuples of
`Value`s, maps from `Literal` keys to `Value`s, process identifiers and
boxed lambdas capturing an environment. -/
inductive Literal where
  | Atom (a : Atom)
  | Integer (i : Int)
  | Float (bits : Nat)
  | Binary (bytes : List Nat)
  | List (l : LamList)
  | Tuple (elements : ValueSeq)
  | Map (pairs : LitValSeq)
  | Pid (p : Nat)
  | Lambda (first_label : Label) (module : Atom) (arity : Arity) (environment : ValueSeq)

/-- Modelled from the spec: the list shape `Nil | Cons(head: Value, tail: Value)`. -/
inductive LamList where
  | Nil
  | Cons (head : Value) (tail : Value)

/-- `Value` from `bytecode.rs`: `Register(Register) | Literal(Literal) | Nil`. -/
inductive Value where
  | Register (r : Register)
  | Literal (l : Literal)
  | Nil

/-- A sequence of `Value`s (tuple elements, lambda environments). -/
inductive ValueSeq where
  | nil
  | cons (head : Value) (tail : ValueSeq)

/-- A sequence of `Literal → Value` map entries. -/
inductive LitValSeq where
  | nil
  | cons (key : Literal) (val : Value) (tail : LitValSeq)

end

/-- `impl Default for Value` in `bytecode.rs`: the default value is `Value::Nil`. -/
def Value.default : Value := Value.Nil

/-- `impl Into<Literal> for Value` in `bytecode.rs`: `Value::Literal(l)`
converts to `l`; every other variant panics (`none` here). -/
def Value.intoLiteral : Value → Option Lam.Literal
  | .Literal l => some l
  | _ => none

/-- `impl Into<Value> for Literal` in `bytecode.rs`: wraps the literal. -/
def Literal.intoValue (l : Literal) : Value := Value.Literal l

/-- `FnCall` from `bytecode.rs`: the four call-site descriptors. -/
inductive FnCall where
  | BuiltIn (module : Atom) (function : Atom) (arity : Arity)
      (arguments : List Value) (destination : Register)
  | Local (module : Atom) (label : Label) (arity : Arity)
  | Qualified (module : Atom) (function : Atom) (arity : Arity)
  | ApplyLambda (arity : Arity) (register : Register)

/-- `FnCall::arity` in `bytecode.rs`: returns the declared arity for
`Local`, `Qualified` and `BuiltIn`; panics (`none`) for `ApplyLambda`. -/
def FnCall.arity : FnCall → Option Arity
  | .Local _ _ a => some a
  | .Qualified _ _ a => some a
  | .BuiltIn _ _ a _ _ => some a
  | .ApplyLambda _ _ => none

/-- `FnCall::module` in `bytecode.rs`: its Rust signature returns
`Option<String>`; it returns `Some(module)` for `Local`, `Qualified`
and `BuiltIn`, and panics for `ApplyLambda`. The outer `Option` models
the panic, the inner one the Rust `Option` result. -/
def FnCall.module : FnCall → Option (Option Atom)
  | .Local m _ _ => some (some m)
  | .Qualified m _ _ => some (some m)
  | .BuiltIn m _ _ _ _ => some (some m)
  | .ApplyLambda _ _ => none

/-- `FnCall::function` in `bytecode.rs`: returns the function name for
`Qualified` and `BuiltIn`; panics (`none`) for `Local` and `ApplyLambda`. -/
def FnCall.function : FnCall → Option Atom
  | .Qualified _ f _ => some f
  | .BuiltIn _ f _ _ _ => some f
  | .Local _ _ _ => none
  | .ApplyLambda _ _ => none

/-- `FnKind` from `bytecode.rs`. -/
inductive FnKind where
  | Native
  | User

/-- `Test` from `bytecode.rs`: side-effect-free predicates. -/
inductive Test where
  | Equals (a b : Value)
  | NotEquals (a b : Value)
  | IsFunctionWithArity (f : Register) (arity : Arity)
  | IsGreaterOrEqualThan (a b : Value)
  | IsNil (v : Value)
  | IsNonEmptyList (v : Value)
  | IsTaggedTuple (value : Value) (size : Nat) (atom : Atom)
  | IsTuple (register : Register) (size : Option Nat)
  | IsMap (register : Register)

/-- `Spawn` from `bytecode.rs`. -/
inductive Spawn where
  | Lambda (register : Register)
  | MFA (module : Atom) (function : Atom) (arity : Arity) (arguments : List Value)

/-- `Instruction` from `bytecode.rs`: the closed opcode set, one
constructor per Rust variant, in source order. The Rust
`HashMap<Literal, Label>` jump table is modelled as an association
list. -/
inductive Instruction where
  | Halt
  | Move (v : Value) (r : Register)
  | Swap (a b : Register)
  | Clear (r : Register)
  | Allocate (words : Nat) (keep_registers : Nat)
  | Deallocate (words : Nat)
  | ShiftLocals (amount : Nat)
  | RestoreLocals
  | Label (l : Label)
  | Jump (l : Label)
  | Return
  | Test (label : Label) (test : Test)
  | ConditionalJump (register : Register) (error : Label) (table : List (Literal × Label))
  | Badmatch
  | Call (call : FnCall) (kind : FnKind)
  | TailCall (call : FnCall) (kind : FnKind)
  | MakeLambda (first_label : Label) (module : Atom) (arity : Arity) (environment_size : Nat)
  | ConsList (head : Value) (tail : Value) (target : Register)
  | SplitList (list : Register) (head : Register) (tail : Register)
  | SplitListTail (list : Register) (tail : Register)
  | SplitListHead (list : Register) (head : Register)
  | MakeTuple (target : Register) (elements : List Value)
  | GetTupleElement (tuple : Register) (element : Nat) (target : Register)
  | GetMapElements (label : Label) (map : Register) (elements : List (Literal × Register))
  | Spawn (spawn : Spawn)
  | Sleep (l : Label)
  | Kill
  | Monitor
  | Send (message : Value) (process : Value)
  | PeekMessage (on_mailbox_empty : Label) (message : Register)
  | RemoveMessage
  | PidSelf (r : Register)

/-- `impl Default for Instruction` in `bytecode.rs`: the default is `Halt`. -/
def Instruction.default : Instruction := Instruction.Halt

mutual

/-- Structural equality on `Literal`, modelling the derived `PartialEq`
(and the `Eq`/`Hash` used by the `HashMap<Literal, Label>` jump table). -/
def Literal.beq : Literal → Literal → Bool
  | .Atom a, .Atom b => a == b
  | .Integer a, .Integer b => a == b
  | .Float a, .Float b => a == b
  | .Binary a, .Binary b => a == b
  | .List a, .List b => LamList.beq a b
  | .Tuple a, .Tuple b => ValueSeq.beq a b
  | .Map a, .Map b => LitValSeq.beq a b
  | .Pid a, .Pid b => a == b
  | .Lambda l1 m1 a1 e1, .Lambda l2 m2 a2 e2 =>
      l1 == l2 && m1 == m2 && a1 == a2 && ValueSeq.beq e1 e2
  | _, _ => false
termination_by structural l _ => l

/-- Structural equality on `LamList`. -/
def LamList.beq : LamList → LamList → Bool
  | .Nil, .Nil => true
  | .Cons h1 t1, .Cons h2 t2 => Value.beq h1 h2 && Value.beq t1 t2
  | _, _ => false
termination_by structural l _ => l

/-- Structural equality on `Value`. -/
def Value.beq : Value → Value → Bool
  | .Register r1, .Register r2 => r1 == r2
  | .Literal l1, .Literal l2 => Literal.beq l1 l2
  | .Nil, .Nil => true
  | _, _ => false
termination_by structural v _ => v

/-- Structural equality on `ValueSeq`. -/
def ValueSeq.beq : ValueSeq → ValueSeq → Bool
  | .nil, .nil => true
  | .cons h1 t1, .cons h2 t2 => Value.beq h1 h2 && ValueSeq.beq t1 t2
  | _, _ => false
termination_by structural s _ => s

/-- Structural equality on `LitValSeq`. -/
def LitValSeq.beq : LitValSeq → LitValSeq → Bool
  | .nil, .nil => true
  | .cons k1 v1 t1, .cons k2 v2 t2 =>
      Literal.beq k1 k2 && Value.beq v1 v2 && LitValSeq.beq t1 t2
  | _, _ => false
termination_by structural s _ => s

end

/-- Lookup of a literal key in the jump table, modelling
`HashMap<Literal, Label>::get`. -/
def tableLookup : List (Literal × Label) → Literal → Option Label
  | [], _ => none
  | (k, lbl) :: rest, l => if Literal.beq k l then some lbl else tableLookup rest l

/-- Modelled from the spec: the Control Unit's executor for
`ConditionalJump{register, error, table}` (the emulator itself is not
among the provided sources; `bytecode.rs` documents the procedure).
It reads the literal held in `register`, looks it up in `table`; on hit
it transfers to the associated label, on miss to `error`. A register
not holding a literal is outside the documented procedure (`none`). -/
def conditionalJump (regs : Register → Value) (register : Register)
    (error : Label) (table : List (Literal × Label)) : Option Label :=
  match regs register with
  | .Literal l =>
      match tableLookup table l with
      | some lbl => some lbl
      | none => some error
  | _ => none

/-- Modelled from the spec: the `MFA` module/function/arity triple of
`lib/lam-emu/src/literal.rs` (not under the provided sources). -/
structure MFA where
  module : Atom
  function : Atom
  arity : Arity

/-- Modelled from the spec: `impl Into<BigInt> for Literal` of
`lib/lam-emu/src/literal.rs` (not under the provided sources) —
an arbitrary-precision integer literal converts to its integer, any
other literal is a fatal conversion error (`none`). -/
def Literal.toBigInt : Literal → Option Int
  | .Integer i => some i
  | _ => none

/-- `WebRuntime::execute` from `web_runtime.rs`, first match arm wins.
`none` models a Rust panic (the catch-all arm, out-of-bounds `args`
indexing, or a failed `BigInt` conversion). The `console::log_1` call
in the `("io", "format")` arm writes a formatted rendering of `args[1]`
to the console and does not contribute to the returned literal; the
returned literal is computed from `mfa` and `args` alone. -/
def WebRuntime.execute (mfa : MFA) (args : List Literal) : Option Lam.Literal :=
  if mfa.module = "io" ∧ mfa.function = "format" then
    match args.get? 1 with
    | some _ => some (Literal.Atom "ok")
    | none => none
  else if mfa.module = "erlang" ∧ mfa.function = "-" then
    match args.get? 0, args.get? 1 with
    | some a, some b =>
        match a.toBigInt, b.toBigInt with
        | some x, some y => some (Literal.Integer (x - y))
        | _, _ => none
    | _, _ => none
  else if mfa.module = "erlang" ∧ mfa.function = "+" then
    match args.get? 0, args.get? 1 with
    | some a, some b =>
        match a.toBigInt, b.toBigInt with
        | some x, some y => some (Literal.Integer (x + y))
        | _, _ => none
    | _, _ => none
  else none

end Lam

namespace Lam

/-- **C5** The default `Value` is `Nil`: a value slot built without an
explicit write holds `Value::Nil`, which is neither a literal nor a
register reference. -/
theorem value_default_is_nil :
    Value.default = Value.Nil ∧
    (∀ r : Register, Value.default ≠ Value.Register r) ∧
    (∀ l : Literal, Value.default ≠ Value.Literal l) := by
  refine ⟨rfl, ?_, ?_⟩ <;> intro x h <;> exact Value.noConfusion h

theorem value_default_is_nil_witness : Value.default = Value.Nil :=
  value_default_is_nil.1

/-- **C10** The default `Instruction` is `Halt`, the instruction that
stops the owning process. -/
theorem instruction_default_is_halt :
    Instruction.default = Instruction.Halt := rfl

/-- **C8** Converting a `Value` into a `Literal` succeeds exactly on the
`Value::Literal` variant, returning the wrapped literal unchanged, and
panics (`none`) on `Value::Register` and `Value::Nil`: no silent
coercion of `Nil` or of a register reference into a literal. -/
theorem value_into_literal_exact :
    (∀ l : Literal, (Value.Literal l).intoLiteral = some l) ∧
    (∀ r : Register, (Value.Register r).intoLiteral = none) ∧
    Value.Nil.intoLiteral = none := by
  exact ⟨fun _ => rfl, fun _ => rfl, rfl⟩

/-- **C1** The `FnCall` accessors return the declared field on the
variants that have the concept and panic (`none`) on those that lack
it: `arity` is defined on `BuiltIn`/`Local`/`Qualified` and fatal on
`ApplyLambda`; `module` likewise; `function` is defined on
`BuiltIn`/`Qualified` and fatal on `Local` and `ApplyLambda`. -/
theorem fncall_accessors :
    (∀ m f a args d, (FnCall.BuiltIn m f a args d).arity = some a) ∧
    (∀ m l a, (FnCall.Local m l a).arity = some a) ∧
    (∀ m f a, (FnCall.Qualified m f a).arity = some a) ∧
    (∀ a r, (FnCall.ApplyLambda a r).arity = none) ∧
    (∀ m f a args d, (FnCall.BuiltIn m f a args d).module = some (some m)) ∧
    (∀ m l a, (FnCall.Local m l a).module = some (some m)) ∧
    (∀ m f a, (FnCall.Qualified m f a).module = some (some m)) ∧
    (∀ a r, (FnCall.ApplyLambda a r).module = none) ∧
    (∀ m f a args d, (FnCall.BuiltIn m f a args d).function = some f) ∧
    (∀ m f a, (FnCall.Qualified m f a).function = some f) ∧
    (∀ m l a, (FnCall.Local m l a).function = none) ∧
    (∀ a r, (FnCall.ApplyLambda a r).function = none) := by
  refine ⟨?_, ?_, ?_, ?_, ?_, ?_, ?_, ?_, ?_, ?_, ?_, ?_⟩ <;> intros <;> rfl

/-- **C7** `Instruction` is a closed enumeration: every instruction is
exactly one of the 32 opcodes of §4, with no other variant. -/
theorem instruction_closed (i : Instruction) :
    i = .Halt ∨ (∃ v r, i = .Move v r) ∨ (∃ a b, i = .Swap a b) ∨
    (∃ r, i = .Clear r) ∨ (∃ w k, i = .Allocate w k) ∨ (∃ w, i = .Deallocate w) ∨
    (∃ a, i = .ShiftLocals a) ∨ i = .RestoreLocals ∨ (∃ l, i = .Label l) ∨
    (∃ l, i = .Jump l) ∨ i = .Return ∨ (∃ l t, i = .Test l t) ∨
    (∃ r e tb, i = .ConditionalJump r e tb) ∨ i = .Badmatch ∨
    (∃ c k, i = .Call c k) ∨ (∃ c k, i = .TailCall c k) ∨
    (∃ fl m a es, i = .MakeLambda fl m a es) ∨ (∃ h t tg, i = .ConsList h t tg) ∨
    (∃ l h t, i = .SplitList l h t) ∨ (∃ l t, i = .SplitListTail l t) ∨
    (∃ l h, i = .SplitListHead l h) ∨ (∃ tg es, i = .MakeTuple tg es) ∨
    (∃ t e tg, i = .GetTupleElement t e tg) ∨ (∃ l m es, i = .GetMapElements l m es) ∨
    (∃ s, i = .Spawn s) ∨ (∃ l, i = .Sleep l) ∨ i = .Kill ∨ i = .Monitor ∨
    (∃ m p, i = .Send m p) ∨ (∃ l m, i = .PeekMessage l m) ∨ i = .RemoveMessage ∨
    (∃ r, i = .PidSelf r) := by
  cases i <;> simp

/-- **C6** `ConditionalJump{register, error, table}`: when the literal
held in `register` is a key of `table`, control transfers to the
associated label; otherwise to the `error` label. In particular, with
the register holding `Integer(2)` and table `{1 -> L1, 2 -> L2}`
(here `L1 = 1`, `L2 = 2`, `L_err = 0`) control reaches `L2`, and with
`Integer(3)` it reaches the error label. -/
theorem conditional_jump_dispatch :
    (∀ (regs : Register → Value) (r : Register) (err : Label)
        (table : List (Literal × Label)) (l : Literal) (lbl : Label),
        regs r = Value.Literal l → tableLookup table l = some lbl →
        conditionalJump regs r err table = some lbl) ∧
    (∀ (regs : Register → Value) (r : Register) (err : Label)
        (table : List (Literal × Label)) (l : Literal),
        regs r = Value.Literal l → tableLookup table l = none →
        conditionalJump regs r err table = some err) ∧
    conditionalJump (fun _ => Value.Literal (Literal.Integer 2)) (Register.Global 0) 0
      [(Literal.Integer 1, 1), (Literal.Integer 2, 2)] = some 2 ∧
    conditionalJump (fun _ => Value.Literal (Literal.Integer 3)) (Register.Global 0) 0
      [(Literal.Integer 1, 1), (Literal.Integer 2, 2)] = some 0 := by
  refine ⟨?_, ?_, rfl, rfl⟩
  · intro regs r err table l lbl hr hl
    simp [conditionalJump, hr, hl]
  · intro regs r err table l hr hl
    simp [conditionalJump, hr, hl]

theorem conditional_jump_dispatch_witness :
    conditionalJump (fun _ => Value.Literal (Literal.Integer 2)) (Register.Global 0) 0
      [(Literal.Integer 1, 1), (Literal.Integer 2, 2)] = some 2 :=
  conditional_jump_dispatch.1 _ _ _ _ (Literal.Integer 2) 2 rfl rfl

/-- **C3** `WebRuntime::execute` on `("erlang", "+")` with two integer
literals returns the exact arbitrary-precision sum, and on
`("erlang", "-")` the exact difference — no overflow, wrapping or
truncation at any magnitude (`BigInt` is modelled by `Int`). -/
theorem web_execute_erlang_arith (a b : Int) (ar : Arity) :
    WebRuntime.execute ⟨"erlang", "+", ar⟩ [Literal.Integer a, Literal.Integer b]
      = some (Literal.Integer (a + b)) ∧
    WebRuntime.execute ⟨"erlang", "-", ar⟩ [Literal.Integer a, Literal.Integer b]
      = some (Literal.Integer (a - b)) := by
  constructor <;> rfl

/-- **C2** `WebRuntime::execute` on any `(module, function)` pair other
than `("io","format")`, `("erlang","-")`, `("erlang","+")` panics
(`none`) instead of returning a literal; per the Runtime contract this
fatal condition belongs to the calling process, not the engine. -/
theorem web_execute_unknown_mfa_fatal (m f : Atom) (ar : Arity) (args : List Literal)
    (h : ¬((m = "io" ∧ f = "format") ∨ (m = "erlang" ∧ f = "-") ∨
           (m = "erlang" ∧ f = "+"))) :
    WebRuntime.execute ⟨m, f, ar⟩ args = none := by
  have h1 : ¬(m = "io" ∧ f = "format") := fun hc => h (Or.inl hc)
  have h2 : ¬(m = "erlang" ∧ f = "-") := fun hc => h (Or.inr (Or.inl hc))
  have h3 : ¬(m = "erlang" ∧ f = "+") := fun hc => h (Or.inr (Or.inr hc))
  simp [WebRuntime.execute, h1, h2, h3]

theorem web_execute_unknown_mfa_fatal_witness :
    WebRuntime.execute ⟨"lists", "reverse", 1⟩ [] = none :=
  web_execute_unknown_mfa_fatal "lists" "reverse" 1 [] (by decide)

/-- **C4** `WebRuntime::execute` is deterministic in its declared
inputs: equal `(module, function, arity)` targets and equal argument
lists produce equal returned literals (the console write in the
`io:format` arm is the intentional side effect and does not influence
the result). -/
theorem web_execute_deterministic (m1 m2 : MFA) (args1 args2 : List Literal)
    (hm : m1.module = m2.module) (hf : m1.function = m2.function)
    (ha : m1.arity = m2.arity) (hargs : args1 = args2) :
    WebRuntime.execute m1 args1 = WebRuntime.execute m2 args2 := by
  cases m1; cases m2
  simp only at hm hf ha
  subst hm; subst hf; subst ha; subst hargs
  rfl

theorem web_execute_deterministic_witness :
    WebRuntime.execute ⟨"erlang", "+", 2⟩ [Literal.Integer 1, Literal.Integer 2]
      = WebRuntime.execute ⟨"erlang", "+", 2⟩ [Literal.Integer 1, Literal.Integer 2] :=
  web_execute_deterministic ⟨"erlang", "+", 2⟩ ⟨"erlang", "+", 2⟩
    [Literal.Integer 1, Literal.Integer 2] [Literal.Integer 1, Literal.Integer 2]
    rfl rfl rfl rfl

/-- **C9** `WebRuntime::execute` on `("io", "format")` returns the atom
`"ok"` for every argument list of length at least two, whatever the
arguments hold; with fewer than two arguments the `args[1]` read is an
out-of-bounds panic (`none`), never a returned literal. -/
theorem web_execute_io_format (ar : Arity) :
    (∀ args : List Literal, 2 ≤ args.length →
      WebRuntime.execute ⟨"io", "format", ar⟩ args = some (Literal.Atom "ok")) ∧
    (∀ args : List Literal, args.length < 2 →
      WebRuntime.execute ⟨"io", "format", ar⟩ args = none) := by
  constructor
  · intro args h
    match args with
    | [] => exact absurd h (by simp)
    | [a] => exact absurd h (by simp)
    | a :: b :: rest => rfl
  · intro args h
    match args with
    | [] => rfl
    | [a] => rfl
    | a :: b :: rest => exact absurd h (by simp)

theorem web_execute_io_format_witness :
    WebRuntime.execute ⟨"io", "format", 2⟩ [Literal.Atom "x", Literal.Integer 5]
      = some (Literal.Atom "ok") :=
  (web_execute_io_format 2).1 [Literal.Atom "x", Literal.Integer 5] (by simp)

end Lam
